import Mathlib

set_option autoImplicit false

/-! Formal model of the covidgraph data_biobase loader (src/run.py) together
with the NodeSet/RelationshipSet container core that the loader drives. -/

namespace Biobase

/-- Scalar property values carried by records: string, number or boolean.
A missing value (JSON null / Python None) is `Option.none` at the use site. -/
inductive Value where
  | str (s : String)
  | num (n : Int)
  | bool (b : Bool)
deriving DecidableEq, Repr

/-- Modelled from the spec: a Record is a mapping of field name to value
(string, number, boolean, or null); fields are kept in insertion order. -/
abbrev Record := List (String × Option Value)

/-- Modelled from the spec: looking a field up in a Record; an absent field
reads as null. -/
def recordGet (r : Record) (f : String) : Option Value :=
  match r with
  | [] => none
  | (g, v) :: rest => if g = f then v else recordGet rest f

/-- Modelled from the spec: set a field of a Record to a non-null value,
updating it in place when present and appending it otherwise. -/
def setField (r : Record) (f : String) (v : Value) : Record :=
  match r with
  | [] => [(f, some v)]
  | (g, w) :: rest => if g = f then (g, some v) :: rest else (g, w) :: setField rest f v

/-- Modelled from the spec: combine two Records that share merge-key values.
Policy: the later record wins field by field, but a null value never
overwrites anything (so a non-null value is never lost to a null). -/
def combine (old new : Record) : Record :=
  new.foldl (fun acc fv =>
    match fv.2 with
    | some v => setField acc fv.1 v
    | none => acc) old

/-- Modelled from the spec: the merge-key value tuple of a Record under a
declared ordered list of merge-key field names. -/
def keyValues (keys : List String) (r : Record) : List (Option Value) :=
  keys.map (recordGet r)

/-- Modelled from the spec: insert one element into a deduplicated
accumulator, combining it with an existing element that has the same key. -/
def dedupInsert {ρ κ : Type} [DecidableEq κ] (key : ρ → κ) (comb : ρ → ρ → ρ) :
    List ρ → ρ → List ρ
  | [], r => [r]
  | e :: rest, r =>
    if key e = key r then comb e r :: rest else e :: dedupInsert key comb rest r

/-- Modelled from the spec: collapse elements sharing identical key values
into one, scanning in insertion order and combining with `comb`. -/
def dedupBy {ρ κ : Type} [DecidableEq κ] (key : ρ → κ) (comb : ρ → ρ → ρ)
    (rs : List ρ) : List ρ :=
  rs.foldl (dedupInsert key comb) []

/-- Modelled from the spec: `deduplicate` of a NodeSet record list under a
merge-key schema — collapse Records sharing identical merge-key values,
combining non-key fields with the last-seen-wins, null-never-overwrites
policy. -/
def deduplicate (keys : List String) (rs : List Record) : List Record :=
  dedupBy (keyValues keys) combine rs

/-- Modelled from the spec: a NodeSet has a label, an ordered non-empty list
of merge-key field names, and an ordered collection of Records. -/
structure NodeSet where
  label : String
  merge_keys : List String
  records : List Record
deriving DecidableEq, Repr

/-- Modelled from the spec: an edge Record carries three sub-groups of
fields: start-match values, end-match values and edge properties. -/
structure EdgeRecord where
  start_match : Record
  end_match : Record
  props : Record
deriving DecidableEq, Repr

/-- Modelled from the spec: a RelationshipSet has a relationship type, the
start and end NodeSets' labels and merge-key schemas, an optional ordered
list of edge-key property names, and an ordered collection of edge
Records. -/
structure RelationshipSet where
  rel_type : String
  start_label : String
  start_keys : List String
  end_label : String
  end_keys : List String
  edge_keys : List String
  records : List EdgeRecord
deriving DecidableEq, Repr

/-- A Container aggregates the NodeSets and RelationshipSets produced by one
parsing run (run.py reads parser.container.nodesets and
parser.container.relationshipsets). -/
structure Container where
  nodesets : List NodeSet
  relationshipsets : List RelationshipSet
deriving DecidableEq, Repr

/-- A parser as run.py sees it: an object exposing a container after its
run_with_mounted_arguments method has been called. -/
structure Parser where
  name : String
  container : Container
deriving DecidableEq, Repr

/-- C6. Given Records with id 1 and fields name:"a", name:null, city:"X",
deduplicated under merge key id, the result is exactly one Record with
id:1, name:"a", city:"X": the later null did not erase name:"a" and the
later non-null city:"X" was taken. -/
theorem dedup_example_c6 :
    deduplicate ["id"]
      [[("id", some (Value.num 1)), ("name", some (Value.str "a"))],
       [("id", some (Value.num 1)), ("name", none)],
       [("id", some (Value.num 1)), ("city", some (Value.str "X"))]]
    = [[("id", some (Value.num 1)), ("name", some (Value.str "a")),
        ("city", some (Value.str "X"))]] := by
  decide

/-- A store round-trip issued by the loading phase of run.py: an
index-creation request or a merge, for a RelationshipSet or a NodeSet. -/
inductive StoreOp where
  | createIndexRel (rs : RelationshipSet)
  | createIndexNode (ns : NodeSet)
  | mergeNode (ns : NodeSet)
  | mergeRel (rs : RelationshipSet)
deriving DecidableEq, Repr

/-- Whether a store operation is a node merge. -/
def StoreOp.isMergeNode : StoreOp → Bool
  | .mergeNode _ => true
  | _ => false

/-- Whether a store operation is a relationship merge. -/
def StoreOp.isMergeRel : StoreOp → Bool
  | .mergeRel _ => true
  | _ => false

/-- Whether a store operation is an index-creation request. -/
def StoreOp.isIndex : StoreOp → Bool
  | .createIndexRel _ => true
  | .createIndexNode _ => true
  | _ => false

/-- Whether a store operation is a merge (node or relationship). -/
def StoreOp.isMerge : StoreOp → Bool
  | .mergeNode _ => true
  | .mergeRel _ => true
  | _ => false

/-- The store operations issued by create_index(graph, parser_list) of
run.py, in order: for each parser, first the index of every
RelationshipSet, then the index of every NodeSet. -/
def create_index_trace : List Parser → List StoreOp
  | [] => []
  | p :: rest =>
    p.container.relationshipsets.map StoreOp.createIndexRel
      ++ p.container.nodesets.map StoreOp.createIndexNode
      ++ create_index_trace rest

/-- The store operations issued by create_nodesets(graph, parser_list) of
run.py: for each parser, a merge of every NodeSet. -/
def create_nodesets_trace : List Parser → List StoreOp
  | [] => []
  | p :: rest =>
    p.container.nodesets.map StoreOp.mergeNode ++ create_nodesets_trace rest

/-- The store operations issued by create_relationshipsets(graph,
parser_list) of run.py: for each parser, a merge of every RelationshipSet. -/
def create_relationshipsets_trace : List Parser → List StoreOp
  | [] => []
  | p :: rest =>
    p.container.relationshipsets.map StoreOp.mergeRel
      ++ create_relationshipsets_trace rest

/-- The full sequence of store operations issued by the loading phase of
run.py (lines 200-202): create_index, then create_nodesets, then
create_relationshipsets, over the same parser list. -/
def loadTrace (ps : List Parser) : List StoreOp :=
  create_index_trace ps ++ create_nodesets_trace ps
    ++ create_relationshipsets_trace ps

/-- Every operation issued by create_index is an index-creation request. -/
theorem mem_create_index_trace {ps : List Parser} {op : StoreOp}
    (h : op ∈ create_index_trace ps) :
    (∃ rs, op = StoreOp.createIndexRel rs) ∨ ∃ ns, op = StoreOp.createIndexNode ns := by
  induction ps with
  | nil => simp [create_index_trace] at h
  | cons p rest ih =>
    simp only [create_index_trace, List.mem_append, List.mem_map] at h
    rcases h with (⟨rs, _, rfl⟩ | ⟨ns, _, rfl⟩) | h
    · exact Or.inl ⟨rs, rfl⟩
    · exact Or.inr ⟨ns, rfl⟩
    · exact ih h

/-- Every operation issued by create_nodesets is a node merge. -/
theorem mem_create_nodesets_trace {ps : List Parser} {op : StoreOp}
    (h : op ∈ create_nodesets_trace ps) : ∃ ns, op = StoreOp.mergeNode ns := by
  induction ps with
  | nil => simp [create_nodesets_trace] at h
  | cons p rest ih =>
    simp only [create_nodesets_trace, List.mem_append, List.mem_map] at h
    rcases h with ⟨ns, _, rfl⟩ | h
    · exact ⟨ns, rfl⟩
    · exact ih h

/-- Every operation issued by create_relationshipsets is a relationship
merge. -/
theorem mem_create_relationshipsets_trace {ps : List Parser} {op : StoreOp}
    (h : op ∈ create_relationshipsets_trace ps) :
    ∃ rs, op = StoreOp.mergeRel rs := by
  induction ps with
  | nil => simp [create_relationshipsets_trace] at h
  | cons p rest ih =>
    simp only [create_relationshipsets_trace, List.mem_append, List.mem_map] at h
    rcases h with ⟨rs, _, rfl⟩ | h
    · exact ⟨rs, rfl⟩
    · exact ih h

/-- If no element of B satisfies P and no element of A satisfies Q, then in
A ++ B any position holding a P element comes strictly before any position
holding a Q element. -/
theorem before_of_append {α : Type} {A B : List α} {P Q : α → Bool}
    (hA : ∀ e ∈ A, Q e = false) (hB : ∀ e ∈ B, P e = false)
    {i j : Nat} {e1 e2 : α}
    (h1 : (A ++ B)[i]? = some e1) (h2 : (A ++ B)[j]? = some e2)
    (hP : P e1 = true) (hQ : Q e2 = true) : i < j := by
  have hiA : i < A.length := by
    by_contra hle
    push_neg at hle
    rw [List.getElem?_append_right hle] at h1
    have hmem : e1 ∈ B := List.getElem?_mem h1
    rw [hB e1 hmem] at hP
    simp at hP
  have hjB : A.length ≤ j := by
    by_contra hlt
    push_neg at hlt
    rw [List.getElem?_append_left hlt] at h2
    have hmem : e2 ∈ A := List.getElem?_mem h2
    rw [hA e2 hmem] at hQ
    simp at hQ
  omega

/-- C1. In every run of the loading phase, every node merge issued by
create_nodesets occupies a strictly earlier position in the issued
operation sequence than every relationship merge issued by
create_relationshipsets: all nodeset.merge calls (over all parsers)
complete before any relationshipset.merge call begins, so node merges for
any referenced NodeSets — of the same or of another parser — precede every
dependent relationship merge. -/
theorem mergeNode_before_mergeRel (ps : List Parser) (i j : Nat)
    (ns : NodeSet) (rs : RelationshipSet)
    (h1 : (loadTrace ps)[i]? = some (StoreOp.mergeNode ns))
    (h2 : (loadTrace ps)[j]? = some (StoreOp.mergeRel rs)) : i < j := by
  simp only [loadTrace] at h1 h2
  refine before_of_append (P := StoreOp.isMergeNode) (Q := StoreOp.isMergeRel)
    ?_ ?_ h1 h2 rfl rfl
  · intro e he
    rcases List.mem_append.mp he with he | he
    · rcases mem_create_index_trace he with ⟨r, rfl⟩ | ⟨n, rfl⟩ <;> rfl
    · rcases mem_create_nodesets_trace he with ⟨n, rfl⟩
      rfl
  · intro e he
    rcases mem_create_relationshipsets_trace he with ⟨r, rfl⟩
    rfl

/-- C3. In every run of the loading phase, every index-creation request
(for any parser's RelationshipSets and NodeSets) occupies a strictly
earlier position in the issued operation sequence than every merge (node
or relationship): all indexes are requested before any merge is issued. -/
theorem index_before_merge (ps : List Parser) (i j : Nat)
    (op1 op2 : StoreOp)
    (h1 : (loadTrace ps)[i]? = some op1) (h2 : (loadTrace ps)[j]? = some op2)
    (hidx : op1.isIndex = true) (hmrg : op2.isMerge = true) : i < j := by
  simp only [loadTrace] at h1 h2
  rw [List.append_assoc] at h1 h2
  refine before_of_append (P := StoreOp.isIndex) (Q := StoreOp.isMerge)
    ?_ ?_ h1 h2 hidx hmrg
  · intro e he
    rcases mem_create_index_trace he with ⟨r, rfl⟩ | ⟨n, rfl⟩ <;> rfl
  · intro e he
    rcases List.mem_append.mp he with he | he
    · rcases mem_create_nodesets_trace he with ⟨n, rfl⟩
      rfl
    · rcases mem_create_relationshipsets_trace he with ⟨r, rfl⟩
      rfl

/-- A concrete NodeSet used by witnesses. -/
def nsW : NodeSet := ⟨"Gene", ["gene_id"], []⟩

/-- A concrete RelationshipSet used by witnesses. -/
def rsW : RelationshipSet :=
  ⟨"PARTICIPATES_IN", "Gene", ["gene_id"], "Pathway", ["pathway_id"], [], []⟩

/-- A concrete parser used by witnesses. -/
def parserW : Parser := ⟨"WitnessSource", ⟨[nsW], [rsW]⟩⟩

/-- C1 witness: in the loading trace of a concrete one-parser run, position
2 holds the node merge, position 3 holds the relationship merge, and
2 < 3 by the C1 theorem. -/
theorem mergeNode_before_mergeRel_witness :
    (loadTrace [parserW])[2]? = some (StoreOp.mergeNode nsW) ∧
    (loadTrace [parserW])[3]? = some (StoreOp.mergeRel rsW) ∧ 2 < 3 :=
  ⟨rfl, rfl, mergeNode_before_mergeRel [parserW] 2 3 nsW rsW rfl rfl⟩

/-- C3 witness: in the loading trace of a concrete one-parser run, position
0 holds an index-creation request, position 2 holds a merge, and 0 < 2 by
the C3 theorem. -/
theorem index_before_merge_witness :
    (loadTrace [parserW])[0]? = some (StoreOp.createIndexRel rsW) ∧
    (loadTrace [parserW])[2]? = some (StoreOp.mergeNode nsW) ∧ 0 < 2 :=
  ⟨rfl, rfl,
    index_before_merge [parserW] 0 2 (StoreOp.createIndexRel rsW)
      (StoreOp.mergeNode nsW) rfl rfl rfl rfl⟩

/-- Issue a sequence of store operations one by one against a store that can
fail, as a Python for-loop with no try/except does: each call is made in
order, and the first raised error aborts the loop. Returns the list of
operations actually issued (the failing one included) and the error, if
any. -/
def runSeq {E : Type} (store : StoreOp → Except E Unit) :
    List StoreOp → List StoreOp × Option E
  | [] => ([], none)
  | op :: rest =>
    match store op with
    | .ok _ =>
      let r := runSeq store rest
      (op :: r.1, r.2)
    | .error e => ([op], some e)

/-- The loading phase of run.py against a fallible store: create_index, then
create_nodesets, then create_relationshipsets, each a plain loop over its
trace; an uncaught error from any of the three aborts everything that
follows (there is no try/except anywhere on this path). -/
def loadRun {E : Type} (store : StoreOp → Except E Unit) (ps : List Parser) :
    List StoreOp × Option E :=
  let r1 := runSeq store (create_index_trace ps)
  match r1.2 with
  | some e => (r1.1, some e)
  | none =>
    let r2 := runSeq store (create_nodesets_trace ps)
    match r2.2 with
    | some e => (r1.1 ++ r2.1, some e)
    | none =>
      let r3 := runSeq store (create_relationshipsets_trace ps)
      (r1.1 ++ r2.1 ++ r3.1, r3.2)

/-- When runSeq reports no error, every operation was issued and every store
call succeeded. -/
theorem runSeq_none {E : Type} {store : StoreOp → Except E Unit}
    {L : List StoreOp} (h : (runSeq store L).2 = none) :
    (runSeq store L).1 = L ∧ ∀ op ∈ L, store op = Except.ok () := by
  induction L with
  | nil => exact ⟨rfl, by simp⟩
  | cons op rest ih =>
    cases hs : store op with
    | ok u =>
      simp only [runSeq, hs] at h ⊢
      rcases ih h with ⟨hiss, hall⟩
      refine ⟨by simp [hiss], ?_⟩
      intro o ho
      rcases List.mem_cons.mp ho with rfl | ho
      · cases u
        exact hs
      · exact hall o ho
    | error e => simp [runSeq, hs] at h

/-- When runSeq reports an error, the operation list splits as pre ++ op ::
post where every store call in pre succeeded, the store call on op raised
exactly the reported error, and only pre ++ [op] was issued — nothing in
post was attempted. -/
theorem runSeq_some {E : Type} {store : StoreOp → Except E Unit}
    {L : List StoreOp} {e : E} (h : (runSeq store L).2 = some e) :
    ∃ pre op post, L = pre ++ op :: post ∧
      (∀ o ∈ pre, store o = Except.ok ()) ∧ store op = Except.error e ∧
      (runSeq store L).1 = pre ++ [op] := by
  induction L with
  | nil => simp [runSeq] at h
  | cons op rest ih =>
    cases hs : store op with
    | ok u =>
      simp only [runSeq, hs] at h ⊢
      rcases ih h with ⟨pre, o, post, hsplit, hpre, ho, hiss⟩
      refine ⟨op :: pre, o, post, by simp [hsplit], ?_, ho, by simp [hiss]⟩
      intro o2 ho2
      rcases List.mem_cons.mp ho2 with rfl | ho2
      · cases u
        exact hs
      · exact hpre o2 ho2
    | error e0 =>
      simp only [runSeq, hs, Option.some.injEq] at h
      exact ⟨[], op, rest, rfl, by simp, by rw [hs, h], by simp [runSeq, hs]⟩

/-- Issuing A ++ B stops inside A when A stops with an error. -/
theorem runSeq_append_some {E : Type} {store : StoreOp → Except E Unit}
    {A : List StoreOp} (B : List StoreOp) {e : E}
    (h : (runSeq store A).2 = some e) :
    runSeq store (A ++ B) = runSeq store A := by
  induction A with
  | nil => simp [runSeq] at h
  | cons op rest ih =>
    cases hs : store op with
    | ok u =>
      simp only [runSeq, hs] at h ⊢
      simp [List.cons_append, runSeq, hs, ih h]
    | error e0 => simp [List.cons_append, runSeq, hs]

/-- Issuing A ++ B when A succeeds issues all of A and then runs B. -/
theorem runSeq_append_none {E : Type} {store : StoreOp → Except E Unit}
    {A : List StoreOp} (B : List StoreOp)
    (h : (runSeq store A).2 = none) :
    runSeq store (A ++ B)
      = ((runSeq store A).1 ++ (runSeq store B).1, (runSeq store B).2) := by
  induction A with
  | nil => simp [runSeq]
  | cons op rest ih =>
    cases hs : store op with
    | ok u =>
      simp only [runSeq, hs] at h ⊢
      simp [List.cons_append, runSeq, hs, ih h]
    | error e0 => simp [runSeq, hs] at h

/-- The three sequential loops of the loading phase behave exactly like one
loop over the concatenated trace. -/
theorem loadRun_eq_runSeq {E : Type} (store : StoreOp → Except E Unit)
    (ps : List Parser) : loadRun store ps = runSeq store (loadTrace ps) := by
  simp only [loadRun, loadTrace]
  cases h1 : (runSeq store (create_index_trace ps)).2 with
  | some e =>
    have hIN : runSeq store (create_index_trace ps ++ create_nodesets_trace ps)
        = runSeq store (create_index_trace ps) := runSeq_append_some _ h1
    have hIN2 : (runSeq store (create_index_trace ps
        ++ create_nodesets_trace ps)).2 = some e := by
      rw [hIN]
      exact h1
    rw [runSeq_append_some _ hIN2, hIN]
    show ((runSeq store (create_index_trace ps)).1, some e)
        = runSeq store (create_index_trace ps)
    rw [← h1]
  | none =>
    cases h2 : (runSeq store (create_nodesets_trace ps)).2 with
    | some e =>
      have hIN := runSeq_append_none (create_nodesets_trace ps) h1
      have hIN2 : (runSeq store (create_index_trace ps
          ++ create_nodesets_trace ps)).2 = some e := by
        rw [hIN, h2]
      rw [runSeq_append_some _ hIN2, hIN]
      show ((runSeq store (create_index_trace ps)).1
            ++ (runSeq store (create_nodesets_trace ps)).1, some e)
          = ((runSeq store (create_index_trace ps)).1
            ++ (runSeq store (create_nodesets_trace ps)).1,
            (runSeq store (create_nodesets_trace ps)).2)
      rw [h2]
    | none =>
      have hIN := runSeq_append_none (create_nodesets_trace ps) h1
      have hIN2 : (runSeq store (create_index_trace ps
          ++ create_nodesets_trace ps)).2 = none := by
        rw [hIN, h2]
      rw [runSeq_append_none _ hIN2, hIN]

/-- C5. Fail-fast error propagation of the loading phase: when the run ends
without an error, every index/merge call succeeded (no store error was
swallowed); and when the run ends with error e, the trace splits as
pre ++ op :: post where every call in pre succeeded, the store raised
exactly e on op, e propagated out as the result, and nothing in post —
no remaining index or merge operation — was ever issued. -/
theorem load_fail_fast {E : Type} (store : StoreOp → Except E Unit)
    (ps : List Parser) :
    ((loadRun store ps).2 = none → ∀ op ∈ loadTrace ps, store op = Except.ok ()) ∧
    ∀ e, (loadRun store ps).2 = some e →
      ∃ pre op post, loadTrace ps = pre ++ op :: post ∧
        (∀ o ∈ pre, store o = Except.ok ()) ∧ store op = Except.error e ∧
        (loadRun store ps).1 = pre ++ [op] := by
  rw [loadRun_eq_runSeq]
  exact ⟨fun h => (runSeq_none h).2, fun e h => runSeq_some h⟩

/-- A concrete store used by the C5 witness: it fails on every node merge
with the error "boom" and succeeds on everything else. -/
def storeW : StoreOp → Except String Unit :=
  fun op => if op.isMergeNode then Except.error "boom" else Except.ok ()

/-- C5 witness: on a concrete one-parser run against a store that fails at
the node merge, the C5 theorem yields the split of the trace at the
failing operation, with the relationship merge never issued. -/
theorem load_fail_fast_witness :
    ∃ pre op post, loadTrace [parserW] = pre ++ op :: post ∧
      (∀ o ∈ pre, storeW o = Except.ok ()) ∧ storeW op = Except.error "boom" ∧
      (loadRun storeW [parserW]).1 = pre ++ [op] :=
  (load_fail_fast storeW [parserW]).2 "boom" rfl

/-- The nine datasources downloaded by run.py, in source order. -/
inductive Datasource where
  | ncbigene
  | bigwordlist
  | ensembl
  | refseq
  | uniprot
  | gtex
  | reactome
  | ncbitaxonomy
  | geneontology
deriving DecidableEq, Repr

/-- A version value passed to a download call: in run.py the only version
expressions ever passed are results of a latest_remote_version call. -/
inductive VersionExpr where
  | remoteVersionOf (ds : Datasource)
deriving DecidableEq, Repr

/-- Adapter-contract calls made by run.py during the download phase; a
download carries its optional version argument and its keyword options. -/
inductive AdapterCall where
  | latestLocalInstance (ds : Datasource)
  | latestRemoteVersion (ds : Datasource)
  | download (ds : Datasource) (version : Option VersionExpr)
      (opts : List (String × List String))
deriving DecidableEq, Repr

/-- The version argument run.py passes to each download call: Ensembl and
Refseq get their own latest_remote_version; the others get none. -/
def defaultVersion : Datasource → Option VersionExpr
  | .ensembl => some (VersionExpr.remoteVersionOf .ensembl)
  | .refseq => some (VersionExpr.remoteVersionOf .refseq)
  | _ => none

/-- The keyword options run.py passes to each download call: Ensembl and
GeneOntology get taxids=["9606"]; the others get nothing. -/
def defaultOpts : Datasource → List (String × List String)
  | .ensembl => [("taxids", ["9606"])]
  | .geneontology => [("taxids", ["9606"])]
  | _ => []

/-- One download block of run.py (lines 95-134): call
latest_local_instance; when the result is falsy, download — Ensembl and
Refseq first obtain latest_remote_version and pass it, the others pass no
version. -/
def dsBlock (hasLocal : Datasource → Bool) (ds : Datasource) : List AdapterCall :=
  AdapterCall.latestLocalInstance ds ::
    (if hasLocal ds then []
     else
       match ds with
       | .ensembl =>
         [AdapterCall.latestRemoteVersion .ensembl,
          AdapterCall.download .ensembl (defaultVersion .ensembl) (defaultOpts .ensembl)]
       | .refseq =>
         [AdapterCall.latestRemoteVersion .refseq,
          AdapterCall.download .refseq (defaultVersion .refseq) (defaultOpts .refseq)]
       | ds2 => [AdapterCall.download ds2 (defaultVersion ds2) (defaultOpts ds2)])

/-- The adapter calls of the whole download phase of run.py, nine blocks in
source order. -/
def downloadPhase (hasLocal : Datasource → Bool) : List AdapterCall :=
  dsBlock hasLocal .ncbigene ++ dsBlock hasLocal .bigwordlist
    ++ dsBlock hasLocal .ensembl ++ dsBlock hasLocal .refseq
    ++ dsBlock hasLocal .uniprot ++ dsBlock hasLocal .gtex
    ++ dsBlock hasLocal .reactome ++ dsBlock hasLocal .ncbitaxonomy
    ++ dsBlock hasLocal .geneontology

/-- A download call found in a block belongs to that block's datasource,
happens only when no local instance exists, and carries exactly the
version and options run.py writes for that datasource. -/
theorem download_mem_dsBlock {hasLocal : Datasource → Bool}
    {ds ds2 : Datasource} {v : Option VersionExpr}
    {opts : List (String × List String)}
    (h : AdapterCall.download ds v opts ∈ dsBlock hasLocal ds2) :
    ds = ds2 ∧ hasLocal ds2 = false ∧ v = defaultVersion ds2
      ∧ opts = defaultOpts ds2 := by
  cases ds2 <;> simp [dsBlock] at h <;> simp_all

/-- When a datasource has no local instance, its block downloads it with
the version and options run.py writes for it. -/
theorem download_self_mem_dsBlock {hasLocal : Datasource → Bool}
    {ds : Datasource} (h : hasLocal ds = false) :
    AdapterCall.download ds (defaultVersion ds) (defaultOpts ds)
      ∈ dsBlock hasLocal ds := by
  cases ds <;> simp [dsBlock, h]

/-- Every call of a datasource's block appears in the download phase. -/
theorem dsBlock_subset_downloadPhase {hasLocal : Datasource → Bool}
    (ds : Datasource) {c : AdapterCall} (h : c ∈ dsBlock hasLocal ds) :
    c ∈ downloadPhase hasLocal := by
  cases ds <;> simp only [downloadPhase, List.mem_append] <;> tauto

/-- C10. A datasource is downloaded in the download phase exactly when its
latest_local_instance result is falsy: a datasource with a local instance
is never re-downloaded. -/
theorem download_iff_no_local (hasLocal : Datasource → Bool) (ds : Datasource) :
    (∃ v opts, AdapterCall.download ds v opts ∈ downloadPhase hasLocal)
      ↔ hasLocal ds = false := by
  constructor
  · rintro ⟨v, opts, hmem⟩
    simp only [downloadPhase, List.mem_append] at hmem
    rcases hmem with ((((((((h | h) | h) | h) | h) | h) | h) | h) | h) <;>
      (rcases download_mem_dsBlock h with ⟨rfl, hfalse, -, -⟩; exact hfalse)
  · intro h
    exact ⟨defaultVersion ds, defaultOpts ds,
      dsBlock_subset_downloadPhase ds (download_self_mem_dsBlock h)⟩

/-- C10 witness: with no datasource having a local instance, NCBI Gene is
downloaded, by the right-to-left direction of the C10 theorem. -/
theorem download_iff_no_local_witness :
    ∃ v opts, AdapterCall.download Datasource.ncbigene v opts
      ∈ downloadPhase (fun _ => false) :=
  (download_iff_no_local (fun _ => false) Datasource.ncbigene).mpr rfl

/-- Whether an adapter call is a download that passes a version argument
obtained from the latest_remote_version of its own datasource; non-download
calls count as compliant. -/
def downloadHasRemoteVersion : AdapterCall → Bool
  | .download ds (some (VersionExpr.remoteVersionOf ds2)) _ => decide (ds = ds2)
  | .download _ none _ => false
  | _ => true

/-- C4 counterexample: with no local instances, the download phase contains
a download call (NCBI Gene) that passes no version argument at all, so not
every download call passes a version obtained from latest_remote_version. -/
theorem download_version_counterexample :
    ¬ ∀ c ∈ downloadPhase (fun _ => false), downloadHasRemoteVersion c = true := by
  decide

/-- C4 amended: every adapter interaction of the download phase is one of
the three contract calls by construction, and a download call carries a
version obtained from its own datasource's latest_remote_version exactly
for Ensembl and Refseq — every other download call passes no version. -/
theorem download_version_usage (hasLocal : Datasource → Bool)
    (ds : Datasource) (v : Option VersionExpr)
    (opts : List (String × List String))
    (h : AdapterCall.download ds v opts ∈ downloadPhase hasLocal) :
    ((ds = Datasource.ensembl ∨ ds = Datasource.refseq)
        → v = some (VersionExpr.remoteVersionOf ds)) ∧
    ((ds ≠ Datasource.ensembl ∧ ds ≠ Datasource.refseq) → v = none) := by
  simp only [downloadPhase, List.mem_append] at h
  rcases h with ((((((((h | h) | h) | h) | h) | h) | h) | h) | h) <;>
    (rcases download_mem_dsBlock h with ⟨rfl, -, rfl, -⟩; simp [defaultVersion])

/-- C4 amended witness: with no local instances, the Ensembl download call
of the download phase passes exactly some latest_remote_version of
Ensembl, by the amended theorem. -/
theorem download_version_usage_witness :
    ((Datasource.ensembl = Datasource.ensembl ∨ Datasource.ensembl = Datasource.refseq)
        → defaultVersion Datasource.ensembl
          = some (VersionExpr.remoteVersionOf Datasource.ensembl)) ∧
    ((Datasource.ensembl ≠ Datasource.ensembl ∧ Datasource.ensembl ≠ Datasource.refseq)
        → defaultVersion Datasource.ensembl = none) :=
  download_version_usage (fun _ => false) Datasource.ensembl
    (defaultVersion Datasource.ensembl) (defaultOpts Datasource.ensembl)
    (by decide)

/-- The run_parser function of run.py: it calls the parser's
run_with_mounted_arguments method (modelled by the oracle runOp giving the
container that the method leaves on the parser, which is mutated in place)
and returns that same parser; alongside the parser it returns the list of
method invocations performed, as (method name, parser name) pairs. -/
def runParserFn (runOp : Parser → Container) (p : Parser) :
    Parser × List (String × String) :=
  let p2 : Parser := { p with container := runOp p }
  (p2, [("run_with_mounted_arguments", p.name)])

/-- C7. run_parser invokes run_with_mounted_arguments exactly once on the
given parser and returns that same parser (same identity, here its name;
only the container filled by the run changed), and the returned parser's
container exposes exactly its nodesets and relationshipsets to the loading
phase: the node-merge trace over it is its nodesets and the
relationship-merge trace is its relationshipsets. -/
theorem runParserFn_contract (runOp : Parser → Container) (p : Parser) :
    (runParserFn runOp p).2.count ("run_with_mounted_arguments", p.name) = 1 ∧
    (runParserFn runOp p).1.name = p.name ∧
    (runParserFn runOp p).1.container = runOp p ∧
    create_nodesets_trace [(runParserFn runOp p).1]
      = (runOp p).nodesets.map StoreOp.mergeNode ∧
    create_relationshipsets_trace [(runParserFn runOp p).1]
      = (runOp p).relationshipsets.map StoreOp.mergeRel := by
  refine ⟨?_, rfl, rfl, ?_, ?_⟩ <;>
    simp [runParserFn, create_nodesets_trace, create_relationshipsets_trace]

/-- The RUN_MODE configuration of run.py: the RUN_MODE environment variable
with default "prod". -/
def RUN_MODE (env : Option String) : String := env.getD "prod"

/-- Lowercase one ASCII character, as Python str.lower does on the ASCII
run-mode strings of run.py. -/
def charLower (c : Char) : Char :=
  if 65 ≤ c.toNat ∧ c.toNat ≤ 90 then Char.ofNat (c.toNat + 32) else c

/-- Lowercase a string character by character (Python str.lower on ASCII
input). -/
def strLower (s : String) : String := ⟨s.data.map charLower⟩

/-- The parsers wired up by run.py lines 140-196, in source order: the
parser class name together with the datasources whose
latest_local_instance results are appended to its datasource_instances. -/
def parserPlan : List (String × List Datasource) :=
  [("NcbiGeneParser", [Datasource.ncbigene]),
   ("BigWordListParser", [Datasource.bigwordlist]),
   ("EnsemblEntityParser", [Datasource.ensembl]),
   ("EnsemblMappingParser", [Datasource.ensembl]),
   ("RefseqEntityParser", [Datasource.refseq]),
   ("RefseqCodesParser", [Datasource.refseq]),
   ("UniprotKnowledgebaseParser", [Datasource.uniprot]),
   ("GeneOntologyAssociationParser", [Datasource.geneontology]),
   ("GtexMetadataParser", [Datasource.gtex]),
   ("GtexDataParser", [Datasource.gtex]),
   ("ReactomePathwayParser", [Datasource.reactome, Datasource.ncbitaxonomy]),
   ("ReactomeMappingParser", [Datasource.reactome, Datasource.ncbitaxonomy])]

/-- The parsers_done list of run.py: each planned parser after its run,
its container given by the runOutput oracle (the result of its
run_with_mounted_arguments call). -/
def parsersDone (runOutput : String → Container) : List Parser :=
  parserPlan.map (fun pd => ⟨pd.1, runOutput pd.1⟩)

/-- An observable effect of a run of run.py against the outside world: the
graph connection, an adapter call (download phase or parser wiring), a
parser run, or a store operation of the loading phase. Logging is not an
effect on the store or the local filesystem and is not modelled. -/
inductive Effect where
  | connectGraph
  | adapter (c : AdapterCall)
  | parserRun (name : String)
  | store (op : StoreOp)
deriving DecidableEq, Repr

/-- The parser-phase effects of run.py: for each planned parser, the
latest_local_instance calls used to wire its datasource_instances, then
its run. -/
def parserPhaseEffects : List Effect :=
  parserPlan.foldr
    (fun pd acc =>
      pd.2.map (fun ds => Effect.adapter (AdapterCall.latestLocalInstance ds))
        ++ Effect.parserRun pd.1 :: acc) []

/-- The effects of the module entry point of run.py: when RUN_MODE
lowercases to "test" it only logs; otherwise it connects to the graph,
runs the download phase, runs every parser, and issues the loading-phase
store operations. -/
def mainEffects (runModeEnv : Option String) (hasLocal : Datasource → Bool)
    (runOutput : String → Container) : List Effect :=
  if strLower (RUN_MODE runModeEnv) = "test" then []
  else
    Effect.connectGraph
      :: (downloadPhase hasLocal).map Effect.adapter
      ++ parserPhaseEffects
      ++ (loadTrace (parsersDone runOutput)).map Effect.store

/-- C9. When the RUN_MODE environment variable (default "prod") equals
"test" after lowercasing, the entry point performs no effect at all: no
graph connection, no adapter call or download, no parser run, and no store
operation — the store and the local filesystem are untouched. -/
theorem test_mode_no_effects (env : Option String)
    (hasLocal : Datasource → Bool) (runOutput : String → Container)
    (h : strLower (RUN_MODE env) = "test") :
    mainEffects env hasLocal runOutput = [] := by
  simp [mainEffects, h]

/-- C9 witness: with RUN_MODE set to "TEST", which lowercases to "test",
the entry point produces no effects, by the C9 theorem. -/
theorem test_mode_no_effects_witness :
    strLower (RUN_MODE (some "TEST")) = "test" ∧
    mainEffects (some "TEST") (fun _ => false) (fun _ => ⟨[], []⟩) = [] :=
  ⟨by decide, test_mode_no_effects _ _ _ (by decide)⟩

/-- Errors a json.loads call can raise in run.py: a JSONDecodeError
carrying its message, or a TypeError when the argument is not a string
(os.getenv returned None). -/
inductive PyError where
  | jsonDecodeError (msg : String)
  | typeError
deriving DecidableEq, Repr

/-- Python json.loads applied to an os.getenv result: None raises
TypeError; a string is parsed by the given JSON parser, whose failure is a
JSONDecodeError with its message. -/
def json_loads {J : Type} (parse : String → Except String J) :
    Option String → Except PyError J
  | none => .error .typeError
  | some s =>
    match parse s with
    | .ok j => .ok j
    | .error m => .error (.jsonDecodeError m)

/-- Replace every single-quote character (code 39) by a double-quote
character (code 34), as the str.replace call of run.py line 25 does. -/
def replaceQuotes (s : String) : String :=
  ⟨s.data.map (fun c => if c.toNat = 39 then Char.ofNat 34 else c)⟩

/-- Lines 21-27 of run.py: try json.loads on the NEO4J environment value;
a JSONDecodeError is caught, the quotes are replaced and json.loads runs
again with no handler around it; any other error of the first call (the
TypeError on None) propagates. -/
def neo4jConfigDict {J : Type} (parse : String → Except String J)
    (env : Option String) : Except PyError J :=
  match json_loads parse env with
  | .ok j => .ok j
  | .error (.jsonDecodeError _) => json_loads parse (env.map replaceQuotes)
  | .error e => .error e

/-- C8. NEO4J configuration parsing succeeds exactly when the value is set
and either the string itself or the string with every single quote
replaced by a double quote parses as JSON; when both parses fail, the
JSONDecodeError of the second parse attempt propagates; and an unset NEO4J
variable fails with a TypeError, not a JSONDecodeError. -/
theorem neo4jConfig_spec {J : Type} (parse : String → Except String J) :
    (∀ s : String,
      ((∃ j, neo4jConfigDict parse (some s) = Except.ok j) ↔
        (∃ j, parse s = Except.ok j)
          ∨ ∃ j, parse (replaceQuotes s) = Except.ok j)) ∧
    (∀ s m1 m2, parse s = Except.error m1 →
      parse (replaceQuotes s) = Except.error m2 →
      neo4jConfigDict parse (some s)
        = Except.error (PyError.jsonDecodeError m2)) ∧
    neo4jConfigDict parse none = Except.error PyError.typeError := by
  refine ⟨?_, ?_, rfl⟩
  · intro s
    cases hp : parse s with
    | ok j => simp [neo4jConfigDict, json_loads, hp]
    | error m =>
      cases hq : parse (replaceQuotes s) with
      | ok j => simp [neo4jConfigDict, json_loads, hp, hq]
      | error m2 => simp [neo4jConfigDict, json_loads, hp, hq]
  · intro s m1 m2 h1 h2
    simp [neo4jConfigDict, json_loads, h1, h2]

/-- A concrete JSON parser used by the C8 witness: it accepts exactly the
string "ok" and reports every other string as its own error message. -/
def parseW : String → Except String Nat :=
  fun s => if s = "ok" then Except.ok 1 else Except.error s

/-- C8 witness: with the concrete parser, the value "bad" fails both parse
attempts and yields the JSONDecodeError of the second attempt, and an
unset variable yields a TypeError, both by the C8 theorem. -/
theorem neo4jConfig_spec_witness :
    neo4jConfigDict parseW (some "bad")
      = Except.error (PyError.jsonDecodeError "bad") ∧
    neo4jConfigDict parseW none = Except.error PyError.typeError :=
  ⟨(neo4jConfig_spec parseW).2.1 "bad" "bad" "bad" rfl rfl,
    (neo4jConfig_spec parseW).2.2⟩

/-- Modelled from the spec: the store key of a node: its label and its
merge-key value tuple. -/
abbrev NodeKey := String × List (Option Value)

/-- Modelled from the spec: the store key of an edge: start node key, end
node key, relationship type and edge-key value tuple. -/
abbrev EdgeKey := NodeKey × NodeKey × String × List (Option Value)

/-- Modelled from the spec: the graph store state — the property record of
each node and of each edge present, looked up by key. -/
structure GraphStore where
  nodes : NodeKey → Option Record
  edges : EdgeKey → Option Record

/-- Modelled from the spec: the empty store. -/
def emptyStore : GraphStore := ⟨fun _ => none, fun _ => none⟩

/-- Modelled from the spec: one match-or-create upsert on a keyed table:
match by key; if found, overwrite the full mutable property set with the
given record; if not found, create it with that record. -/
def upsert {κ α : Type} [DecidableEq κ] (t : κ → Option α) (kv : κ × α) :
    κ → Option α :=
  fun k2 => if k2 = kv.1 then some kv.2 else t k2

/-- Apply a list of upserts to a table in order. -/
def applyUpserts {κ α : Type} [DecidableEq κ] (t : κ → Option α)
    (L : List (κ × α)) : κ → Option α :=
  L.foldl upsert t

/-- The last assignment made to key k by an upsert list, if any. -/
def lastAssign {κ α : Type} [DecidableEq κ] (k : κ) :
    List (κ × α) → Option α
  | [] => none
  | kv :: rest =>
    match lastAssign k rest with
    | some v => some v
    | none => if k = kv.1 then some kv.2 else none

/-- A table after a list of upserts reads, at each key, the last value
assigned to that key, and the old table where no assignment happened. -/
theorem applyUpserts_eq {κ α : Type} [DecidableEq κ] (t : κ → Option α)
    (L : List (κ × α)) (k : κ) :
    applyUpserts t L k
      = match lastAssign k L with
        | some v => some v
        | none => t k := by
  induction L generalizing t with
  | nil => simp [applyUpserts, lastAssign]
  | cons kv rest ih =>
    show applyUpserts (upsert t kv) rest k = _
    rw [ih]
    cases h : lastAssign k rest with
    | some v => simp [lastAssign, h]
    | none =>
      simp only [lastAssign, h]
      by_cases hk : k = kv.1 <;> simp [upsert, hk]

/-- Applying the same upsert list twice is the same as applying it once. -/
theorem applyUpserts_idem {κ α : Type} [DecidableEq κ] (t : κ → Option α)
    (L : List (κ × α)) :
    applyUpserts (applyUpserts t L) L = applyUpserts t L := by
  funext k
  rw [applyUpserts_eq, applyUpserts_eq]
  cases h : lastAssign k L with
  | some v => rfl
  | none => rfl

/-- Modelled from the spec: the node upserts of a NodeSet: for each
deduplicated Record, match by (label, merge-key values) and write the full
record as the node's properties. -/
def nodeAssigns (ns : NodeSet) : List (NodeKey × Record) :=
  (deduplicate ns.merge_keys ns.records).map
    (fun r => ((ns.label, keyValues ns.merge_keys r), r))

/-- Modelled from the spec: NodeSet.merge — apply the NodeSet's upserts to
the node table; edges are untouched. -/
def NodeSet.merge (ns : NodeSet) (s : GraphStore) : GraphStore :=
  { s with nodes := applyUpserts s.nodes (nodeAssigns ns) }

/-- Merge a list of NodeSets in order. -/
def mergeNodeSets (s : GraphStore) : List NodeSet → GraphStore
  | [] => s
  | ns :: rest => mergeNodeSets (ns.merge s) rest

/-- The node upserts of a list of NodeSets, in merge order. -/
def allNodeAssigns : List NodeSet → List (NodeKey × Record)
  | [] => []
  | ns :: rest => nodeAssigns ns ++ allNodeAssigns rest

/-- Merging NodeSets applies their upserts to the node table and leaves the
edge table unchanged. -/
theorem mergeNodeSets_eq (s : GraphStore) (nss : List NodeSet) :
    mergeNodeSets s nss
      = ⟨applyUpserts s.nodes (allNodeAssigns nss), s.edges⟩ := by
  induction nss generalizing s with
  | nil => simp [mergeNodeSets, allNodeAssigns, applyUpserts]
  | cons ns rest ih =>
    simp [mergeNodeSets, NodeSet.merge, allNodeAssigns, ih, applyUpserts,
      List.foldl_append]

/-- Modelled from the spec: the store key of the start node an edge record
must match. -/
def startKey (rs : RelationshipSet) (e : EdgeRecord) : NodeKey :=
  (rs.start_label, keyValues rs.start_keys e.start_match)

/-- Modelled from the spec: the store key of the end node an edge record
must match. -/
def endKey (rs : RelationshipSet) (e : EdgeRecord) : NodeKey :=
  (rs.end_label, keyValues rs.end_keys e.end_match)

/-- Modelled from the spec: the store key of an edge record: start node
key, end node key, relationship type, edge-key values taken from the edge
properties. -/
def edgeKeyOf (rs : RelationshipSet) (e : EdgeRecord) : EdgeKey :=
  (startKey rs e, endKey rs e, rs.rel_type, keyValues rs.edge_keys e.props)

/-- Modelled from the spec: RelationshipSet.deduplicate — collapse edge
records keyed on (start-match, end-match, type, edge-key values),
combining each field group with the record-combination policy. -/
def dedupEdges (rs : RelationshipSet) : List EdgeRecord :=
  dedupBy (edgeKeyOf rs)
    (fun e1 e2 => ⟨combine e1.start_match e2.start_match,
                   combine e1.end_match e2.end_match,
                   combine e1.props e2.props⟩) rs.records

/-- Modelled from the spec: the store error surfaced when a relationship
merge references a node absent from the store. -/
inductive StoreError where
  | danglingReference (k : NodeKey)
deriving DecidableEq

/-- Both nodes an edge record references exist in the node table. -/
def nodesOk (nodes : NodeKey → Option Record) (rs : RelationshipSet)
    (e : EdgeRecord) : Prop :=
  (nodes (startKey rs e)).isSome = true ∧ (nodes (endKey rs e)).isSome = true

/-- Modelled from the spec: merging one edge: match the start node and the
end node independently by their merge keys — a missing one surfaces a
dangling-reference store error — then match-or-create the edge by its key
and fully overwrite its properties. -/
def mergeEdge (rs : RelationshipSet) (s : GraphStore) (e : EdgeRecord) :
    Except StoreError GraphStore :=
  if (s.nodes (startKey rs e)).isSome then
    if (s.nodes (endKey rs e)).isSome then
      .ok { s with edges := upsert s.edges (edgeKeyOf rs e, e.props) }
    else .error (.danglingReference (endKey rs e))
  else .error (.danglingReference (startKey rs e))

/-- Merge a list of edge records in order, stopping at the first error. -/
def mergeEdges (rs : RelationshipSet) (s : GraphStore) :
    List EdgeRecord → Except StoreError GraphStore
  | [] => .ok s
  | e :: rest =>
    match mergeEdge rs s e with
    | .ok s2 => mergeEdges rs s2 rest
    | .error err => .error err

/-- Modelled from the spec: RelationshipSet.merge — merge every
deduplicated edge record. -/
def RelationshipSet.merge (rs : RelationshipSet) (s : GraphStore) :
    Except StoreError GraphStore :=
  mergeEdges rs s (dedupEdges rs)

/-- Merge a list of RelationshipSets in order, stopping at the first
error. -/
def mergeRelSets (s : GraphStore) :
    List RelationshipSet → Except StoreError GraphStore
  | [] => .ok s
  | rs :: rest =>
    match rs.merge s with
    | .ok s2 => mergeRelSets s2 rest
    | .error e => .error e

/-- Modelled from the spec: merging a Container into the store: all node
merges first, then all relationship merges. -/
def mergeContainer (s : GraphStore) (c : Container) :
    Except StoreError GraphStore :=
  mergeRelSets (mergeNodeSets s c.nodesets) c.relationshipsets

/-- The edge upserts of one RelationshipSet, in merge order. -/
def edgeAssigns (rs : RelationshipSet) : List (EdgeKey × Record) :=
  (dedupEdges rs).map (fun e => (edgeKeyOf rs e, e.props))

/-- The edge upserts of a list of RelationshipSets, in merge order. -/
def allEdgeAssigns : List RelationshipSet → List (EdgeKey × Record)
  | [] => []
  | rs :: rest => edgeAssigns rs ++ allEdgeAssigns rest

/-- When a list of edge merges succeeds, the node table is untouched, every
edge resolved both of its nodes against it, and the edge table is the old
one with the edge upserts applied in order. -/
theorem mergeEdges_ok_elim {rs : RelationshipSet} {s s2 : GraphStore}
    {es : List EdgeRecord} (h : mergeEdges rs s es = Except.ok s2) :
    s2.nodes = s.nodes ∧ (∀ e ∈ es, nodesOk s.nodes rs e) ∧
    s2.edges
      = applyUpserts s.edges (es.map fun e => (edgeKeyOf rs e, e.props)) := by
  induction es generalizing s with
  | nil =>
    simp only [mergeEdges, Except.ok.injEq] at h
    subst h
    exact ⟨rfl, by simp, rfl⟩
  | cons e rest ih =>
    by_cases hs : (s.nodes (startKey rs e)).isSome = true
    · by_cases he : (s.nodes (endKey rs e)).isSome = true
      · simp only [mergeEdges, mergeEdge, hs, he, if_true] at h
        rcases ih h with ⟨hn, hok, hedges⟩
        refine ⟨hn, ?_, hedges⟩
        intro e2 he2
        rcases List.mem_cons.mp he2 with rfl | he2
        · exact ⟨hs, he⟩
        · exact hok e2 he2
      · simp [mergeEdges, mergeEdge, hs, he] at h
    · simp [mergeEdges, mergeEdge, hs] at h

/-- When every edge of a list resolves both of its nodes, merging the list
succeeds and applies exactly the edge upserts, in order. -/
theorem mergeEdges_ok_intro {rs : RelationshipSet} {s : GraphStore}
    {es : List EdgeRecord} (h : ∀ e ∈ es, nodesOk s.nodes rs e) :
    mergeEdges rs s es
      = Except.ok
          ⟨s.nodes,
            applyUpserts s.edges (es.map fun e => (edgeKeyOf rs e, e.props))⟩ := by
  induction es generalizing s with
  | nil => rfl
  | cons e rest ih =>
    have he := h e (List.mem_cons_self e rest)
    simp only [mergeEdges, mergeEdge, he.1, he.2, if_true]
    exact ih (fun e2 he2 => h e2 (List.mem_cons_of_mem e he2))

/-- When merging a list of RelationshipSets succeeds, the node table is
untouched, every deduplicated edge of every set resolved its nodes against
it, and the edge table is the old one with all edge upserts applied. -/
theorem mergeRelSets_ok_elim {s s2 : GraphStore} {rss : List RelationshipSet}
    (h : mergeRelSets s rss = Except.ok s2) :
    s2.nodes = s.nodes ∧
    (∀ rs ∈ rss, ∀ e ∈ dedupEdges rs, nodesOk s.nodes rs e) ∧
    s2.edges = applyUpserts s.edges (allEdgeAssigns rss) := by
  induction rss generalizing s with
  | nil =>
    simp only [mergeRelSets, Except.ok.injEq] at h
    subst h
    exact ⟨rfl, by simp, rfl⟩
  | cons rs rest ih =>
    simp only [mergeRelSets] at h
    cases hm : rs.merge s with
    | error e => rw [hm] at h; exact absurd h (by simp)
    | ok s3 =>
      rw [hm] at h
      have hm2 : mergeEdges rs s (dedupEdges rs) = Except.ok s3 := hm
      rcases mergeEdges_ok_elim hm2 with ⟨hn3, hok3, he3⟩
      rcases ih h with ⟨hn2, hok2, he2⟩
      refine ⟨hn2.trans hn3, ?_, ?_⟩
      · intro rs2 hmem e hedge
        rcases List.mem_cons.mp hmem with rfl | hmem2
        · exact hok3 e hedge
        · have hk := hok2 rs2 hmem2 e hedge
          rwa [hn3] at hk
      · rw [he2, he3]
        simp [applyUpserts, allEdgeAssigns, edgeAssigns, List.foldl_append]

/-- When every deduplicated edge of every RelationshipSet resolves its
nodes, merging all the sets succeeds and applies exactly all the edge
upserts, in order. -/
theorem mergeRelSets_ok_intro {s : GraphStore} {rss : List RelationshipSet}
    (h : ∀ rs ∈ rss, ∀ e ∈ dedupEdges rs, nodesOk s.nodes rs e) :
    mergeRelSets s rss
      = Except.ok ⟨s.nodes, applyUpserts s.edges (allEdgeAssigns rss)⟩ := by
  induction rss generalizing s with
  | nil => rfl
  | cons rs rest ih =>
    have h1 : rs.merge s
        = Except.ok ⟨s.nodes, applyUpserts s.edges (edgeAssigns rs)⟩ :=
      mergeEdges_ok_intro (fun e he => h rs (List.mem_cons_self rs rest) e he)
    simp only [mergeRelSets]
    rw [h1]
    show mergeRelSets ⟨s.nodes, applyUpserts s.edges (edgeAssigns rs)⟩ rest
        = Except.ok ⟨s.nodes, applyUpserts s.edges (allEdgeAssigns (rs :: rest))⟩
    have pre : ∀ rs2 ∈ rest, ∀ e ∈ dedupEdges rs2,
        nodesOk (GraphStore.mk s.nodes
          (applyUpserts s.edges (edgeAssigns rs))).nodes rs2 e :=
      fun rs2 hm e he => h rs2 (List.mem_cons_of_mem rs hm) e he
    rw [ih pre]
    simp [applyUpserts, allEdgeAssigns, List.foldl_append]

/-- C2. Merging the same Container a second time on top of its own first
merge into the empty store yields the identical store state — the same
nodes with the same property values and the same edges, hence the same
node and edge count: merge is idempotent and convergent. -/
theorem merge_container_idempotent (c : Container) (s1 : GraphStore)
    (h : mergeContainer emptyStore c = Except.ok s1) :
    mergeContainer s1 c = Except.ok s1 := by
  unfold mergeContainer at h ⊢
  rw [mergeNodeSets_eq] at h
  rcases mergeRelSets_ok_elim h with ⟨hn, hok, he⟩
  rw [mergeNodeSets_eq]
  have hnodes2 : applyUpserts s1.nodes (allNodeAssigns c.nodesets)
      = s1.nodes := by
    rw [hn]
    exact applyUpserts_idem _ _
  rw [hnodes2]
  have hok2 : ∀ rs ∈ c.relationshipsets, ∀ e ∈ dedupEdges rs,
      nodesOk s1.nodes rs e := by
    intro rs hm e heg
    rw [hn]
    exact hok rs hm e heg
  rw [mergeRelSets_ok_intro hok2]
  have hedges2 : applyUpserts s1.edges (allEdgeAssigns c.relationshipsets)
      = s1.edges := by
    rw [he]
    exact applyUpserts_idem _ _
  rw [hedges2]

/-- A concrete Gene NodeSet used by the C2 witness. -/
def geneNS : NodeSet :=
  ⟨"Gene", ["gene_id"],
    [[("gene_id", some (Value.str "G1")), ("symbol", some (Value.str "TP53"))]]⟩

/-- A concrete Pathway NodeSet used by the C2 witness. -/
def pathwayNS : NodeSet :=
  ⟨"Pathway", ["pathway_id"], [[("pathway_id", some (Value.str "P1"))]]⟩

/-- A concrete PARTICIPATES_IN RelationshipSet used by the C2 witness. -/
def partRS : RelationshipSet :=
  ⟨"PARTICIPATES_IN", "Gene", ["gene_id"], "Pathway", ["pathway_id"], [],
    [⟨[("gene_id", some (Value.str "G1"))],
      [("pathway_id", some (Value.str "P1"))], []⟩]⟩

/-- A concrete Container used by the C2 witness. -/
def cW : Container := ⟨[geneNS, pathwayNS], [partRS]⟩

/-- The store produced by the first merge of the C2 witness Container. -/
def s1W : GraphStore :=
  match mergeContainer emptyStore cW with
  | .ok s => s
  | .error _ => emptyStore

/-- C2 witness: the concrete Container merges successfully into the empty
store, and merging it a second time yields the identical store state, by
the C2 theorem. -/
theorem merge_container_idempotent_witness :
    mergeContainer emptyStore cW = Except.ok s1W ∧
    mergeContainer s1W cW = Except.ok s1W :=
  ⟨rfl, merge_container_idempotent cW s1W rfl⟩

end Biobase
